import Mathlib

/-!
Shallow embedding of the size-normalization and pivot engine of `src/app.py`
(vertical → horizontal SKU × size converter).

Conventions of the embedding:
* a spreadsheet cell is a `Value`: missing (pandas `NaN`), an integer,
  a float (modelled exactly as `Rat`), a text string, or a date/timestamp
  (modelled by its day-count offset from the Excel epoch 1899-12-30, which is
  exactly the quantity `excel_serial_from_datetime` computes in the source);
* Python floats are modelled as rationals: every literal the program
  manipulates (sizes, bounds, the 46141 offset, 1e-9) is exactly
  representable, and the comparisons and subtractions the code performs
  agree with rational arithmetic on those values;
* `pd.to_datetime(s, errors="raise")` on free-form text is an external
  library call; it enters the embedding as an explicit parameter
  `parseDate : String → Option Int` returning the day offset from the epoch;
* fallible pandas operations (column lookup) return `Option`/`Except`.
-/

namespace VertToOrizz

/-- A raw spreadsheet cell as read by `pd.read_excel`. -/
inductive Value where
  | missing
  | int (n : Int)
  | num (q : Rat)
  | str (s : String)
  | date (serial : Int)
deriving DecidableEq, Repr

/-- `SERIAL_OFFSET = 46141` from the source: size = Excel serial − 46141. -/
def SERIAL_OFFSET : Int := 46141

/-- `excel_serial_from_datetime`: `int((pd.Timestamp(x) - EXCEL_EPOCH).days)`.
A date value is modelled directly by that day count, so this is the
identity on the model. -/
def excel_serial_from_datetime (serial : Int) : Int := serial

/-- Exact rational subtraction, written with `mkRat` so that it evaluates
inside the kernel; `ratSub_eq` proves it is ordinary subtraction. -/
def ratSub (a b : Rat) : Rat := mkRat (a.num * b.den - b.num * a.den) (a.den * b.den)

/-- Absolute value on `Rat`, kernel-computable; `ratAbs_eq` proves it is `|·|`. -/
def ratAbs (q : Rat) : Rat := if q < 0 then -q else q

/-- `pd.isna` on a cell. -/
def pyIsna : Value → Bool
  | .missing => true
  | _ => false

/-- Python `str(...)` on a cell, as `.astype(str)` applies it elementwise.
Crucially `str(float("nan"))` is the text `"nan"`, so a missing cell turns
into the non-empty string `"nan"`.  The rendering of numeric and date cells
is never empty; no claim depends on its exact spelling. -/
def pyStr : Value → String
  | .missing => "nan"
  | .int n => toString n
  | .num q => toString q
  | .str s => s
  | .date d => toString d

/-- Strip leading and trailing whitespace from a character list. -/
def trimChars (cs : List Char) : List Char :=
  ((cs.dropWhile Char.isWhitespace).reverse.dropWhile Char.isWhitespace).reverse

/-- Python `.strip()` / pandas `.str.strip()`. -/
def pyStrip (s : String) : String := ⟨trimChars s.data⟩

/-- `s.replace(",", ".")`: every comma becomes a period. -/
def commaToDot (s : String) : String :=
  ⟨s.data.map (fun c => if c = ',' then '.' else c)⟩

/-- Python `.lower()`. -/
def lowerStr (s : String) : String := ⟨s.data.map Char.toLower⟩

/-- Digits-prefix splitter for the numeric-text parser. -/
def spanDigits : List Char → List Char × List Char
  | [] => ([], [])
  | c :: cs =>
    if c.isDigit then
      let (ds, rest) := spanDigits cs
      (c :: ds, rest)
    else ([], c :: cs)

/-- Value of a digit list read left to right. -/
def natOfDigits (ds : List Char) : Nat :=
  ds.foldl (fun a c => a * 10 + (c.toNat - 48)) 0

/-- Exponent part `e±ddd` of a float literal; `none` if malformed. -/
def parseExp : List Char → Option Int
  | [] => some 0
  | e :: cs =>
    if e = 'e' ∨ e = 'E' then
      match cs with
      | '+' :: ds =>
        let (digs, rest) := spanDigits ds
        if digs ≠ [] ∧ rest = [] then some (natOfDigits digs) else none
      | '-' :: ds =>
        let (digs, rest) := spanDigits ds
        if digs ≠ [] ∧ rest = [] then some (-(natOfDigits digs : Int)) else none
      | ds =>
        let (digs, rest) := spanDigits ds
        if digs ≠ [] ∧ rest = [] then some (natOfDigits digs) else none
    else none

/-- Exact value of the decimal literal `ip.fp × 10^e` where `fp` has `k`
digits: `(ip + fp / 10^k) * 10^e`, written as one `mkRat` so that it
evaluates inside the kernel. -/
def ratOfDecimal (ip fp k : Nat) (e : Int) : Rat :=
  match e with
  | .ofNat m => mkRat ((ip * 10 ^ k + fp) * 10 ^ m : Nat) (10 ^ k)
  | .negSucc m => mkRat ((ip * 10 ^ k + fp : Nat)) (10 ^ k * 10 ^ (m + 1))

/-- Mantissa (after the optional sign) plus exponent: `ddd[.ddd][e±ddd]`. -/
def parseMantissa (cs : List Char) : Option Rat :=
  let (ip, r1) := spanDigits cs
  match r1 with
  | '.' :: r2 =>
    let (fp, r3) := spanDigits r2
    if ip = [] ∧ fp = [] then none
    else
      match parseExp r3 with
      | some e => some (ratOfDecimal (natOfDigits ip) (natOfDigits fp) fp.length e)
      | none => none
  | r2 =>
    if ip = [] then none
    else
      match parseExp r2 with
      | some e => some (ratOfDecimal (natOfDigits ip) 0 0 e)
      | none => none

/-- Model of Python `float(s)` (and of `pd.to_numeric` on a text cell) on
decimal literals: optional sign, digits with an optional fractional part,
optional exponent.  Anything else fails. -/
def parseFloat (s : String) : Option Rat :=
  match s.data with
  | '+' :: cs => parseMantissa cs
  | '-' :: cs => (parseMantissa cs).map (fun q => -q)
  | cs => parseMantissa cs

/-- `normalize_size` from the source, with `pd.to_datetime` on text supplied
as `parseDate`.  Returns `none` where the source returns `np.nan`. -/
def normalize_size (parseDate : String → Option Int) (val : Value) : Option Rat :=
  match val with
  | .missing => none
  | .date d => some ((excel_serial_from_datetime d - SERIAL_OFFSET : Int) : Rat)
  | .int n =>
    let x : Rat := (n : Rat)
    if x > 1000 then some (ratSub x ((SERIAL_OFFSET : Int) : Rat)) else some x
  | .num q =>
    if q > 1000 then some (ratSub q ((SERIAL_OFFSET : Int) : Rat)) else some q
  | .str v =>
    let s := commaToDot (pyStrip v)
    if lowerStr s = "nan" ∨ lowerStr s = "none" ∨ lowerStr s = "" then none
    else
      match parseFloat s with
      | some x => if x > 1000 then some (ratSub x ((SERIAL_OFFSET : Int) : Rat)) else some x
      | none =>
        match parseDate s with
        | some serial => some ((excel_serial_from_datetime serial - SERIAL_OFFSET : Int) : Rat)
        | none => none

/-- A trivial instance of the external date-text parser that never parses. -/
def parseDateNone : String → Option Int := fun _ => none

/-- `pd.to_numeric(·, errors="coerce")` on one cell: numbers pass through,
numeric text parses (pandas strips surrounding whitespace), everything else
coerces to `NaN` (`none`). -/
def pyToNumeric : Value → Option Rat
  | .int n => some (n : Rat)
  | .num q => some q
  | .str s => parseFloat (pyStrip s)
  | _ => none

/-- `astype(int)` on a float: truncation toward zero. -/
def truncToInt (q : Rat) : Int := if 0 ≤ q then ⌊q⌋ else ⌈q⌉

/-- The quantity pipeline of one cell:
`pd.to_numeric(·, errors="coerce").fillna(0).astype(int)`. -/
def coerce_qty (v : Value) : Int := truncToInt ((pyToNumeric v).getD 0)

/-- A column label of the wide table: the key/TOT column names are strings,
pivot columns carry the canonical size, `nice_header` renames a size column
to an integer label when it is ε-close to an integer. -/
inductive ColLabel where
  | str (s : String)
  | num (q : Rat)
  | int (n : Int)
deriving DecidableEq, Repr

/-- Python `round` on our exact rationals: round half to even. -/
def pyRound (q : Rat) : Int :=
  let f := ⌊q⌋
  let frac := ratSub q ((f : Int) : Rat)
  if frac < mkRat 1 2 then f
  else if frac > mkRat 1 2 then f + 1
  else if f % 2 = 0 then f else f + 1

/-- The 1e-9 tolerance of `nice_header`, exactly. -/
def headerEps : Rat := mkRat 1 1000000000

/-- `nice_header` from the source: integer label within 1e-9 of an integer,
the raw float label otherwise. -/
def nice_header (x : Rat) : ColLabel :=
  if ratAbs (ratSub x ((pyRound x : Int) : Rat)) < headerEps then .int (pyRound x) else .num x

/-- One cell of the wide output: the key column holds text, the size and TOT
columns hold int64 values. -/
inductive Cell where
  | str (s : String)
  | int (n : Int)
deriving DecidableEq, Repr

/-- The wide table, column-major: each column is its label plus its cells. -/
abbrev WideT := List (ColLabel × List Cell)

/-- A long-form table: a list of column names and a list of rows. -/
structure Table where
  cols : List String
  rows : List (List Value)
deriving DecidableEq, Repr

/-- Every row has exactly one cell per column. -/
def Table.Rect (t : Table) : Prop := ∀ r ∈ t.rows, r.length = t.cols.length

/-- Position of a named column (pandas column lookup, first match). -/
def colIdx : List String → String → Option Nat
  | [], _ => none
  | c :: cs, x => if c = x then some 0 else (colIdx cs x).map (fun i => i + 1)

/-- `d[c] = d[c].apply f` elementwise on an existing column. -/
def mapCol (t : Table) (c : String) (f : Value → Value) : Option Table :=
  match colIdx t.cols c with
  | none => none
  | some i => some ⟨t.cols, t.rows.map (fun r => r.set i (f (r.getD i .missing)))⟩

/-- `d = d[pred(d[c])]`: keep the rows whose cell in column `c` satisfies `p`. -/
def filterOn (t : Table) (c : String) (p : Value → Bool) : Option Table :=
  match colIdx t.cols c with
  | none => none
  | some i => some ⟨t.cols, t.rows.filter (fun r => p (r.getD i .missing))⟩

/-- `d[dst] = d[src].apply f`: build a column from `src`; a fresh `dst` is
appended on the right, an existing `dst` is overwritten. -/
def applyNewCol (t : Table) (src dst : String) (f : Value → Value) : Option Table :=
  match colIdx t.cols src with
  | none => none
  | some i =>
    match colIdx t.cols dst with
    | some j => some ⟨t.cols, t.rows.map (fun r => r.set j (f (r.getD i .missing)))⟩
    | none => some ⟨t.cols ++ [dst], t.rows.map (fun r => r ++ [f (r.getD i .missing)])⟩

/-- Numeric content of a cell of the `_size_norm` column. -/
def Value.asRat : Value → Rat
  | .num q => q
  | .int n => (n : Rat)
  | _ => 0

/-- int64 content of a cell of the coerced quantity column. -/
def Value.asInt : Value → Int
  | .int n => n
  | _ => 0

/-- Lexicographic comparison of character lists by code point, the order
Python uses on strings. -/
def charListLt : List Char → List Char → Bool
  | [], [] => false
  | [], _ :: _ => true
  | _ :: _, [] => false
  | a :: as, b :: bs => if a < b then true else if b < a then false else charListLt as bs

/-- `a <= b` on strings, by code points. -/
def strLe (a b : String) : Bool := !(charListLt b.data a.data)

/-- pandas sorts the pivot index (SKU strings) ascending. -/
def sortStr (l : List String) : List String :=
  List.insertionSort (fun a b => strLe a b = true) l

/-- pandas sorts the pivot columns (canonical sizes) ascending. -/
def sortRat (l : List Rat) : List Rat := List.insertionSort (fun a b => a ≤ b) l

/-- Sum of the coerced quantities of the rows of one `(key, size)` group. -/
def cellSum (rows : List (List Value)) (ii ci vi : Nat) (k : String) (s : Rat) : Int :=
  ((rows.filter (fun r => decide (pyStr (r.getD ii .missing) = k) &&
      decide (Value.asRat (r.getD ci .missing) = s))).map
    (fun r => Value.asInt (r.getD vi .missing))).sum

/-- `d.pivot_table(index=idxCol, columns=colsCol, values=valCol, aggfunc="sum",
fill_value=0).reset_index()`: one row per distinct index value, one column per
distinct column value (both sorted by pandas), each cell the group sum, absent
combinations filled with 0. -/
def pivot_table (t : Table) (idxCol colsCol valCol : String) : Option WideT :=
  match colIdx t.cols idxCol, colIdx t.cols colsCol, colIdx t.cols valCol with
  | some ii, some ci, some vi =>
    let keys := sortStr ((t.rows.map (fun r => pyStr (r.getD ii .missing))).dedup)
    let sizes := sortRat ((t.rows.map (fun r => Value.asRat (r.getD ci .missing))).dedup)
    some ((ColLabel.str idxCol, keys.map Cell.str) ::
      sizes.map (fun s => (ColLabel.num s,
        keys.map (fun k => Cell.int (cellSum t.rows ii ci vi k s)))))
  | _, _, _ => none

/-- `float(c)` on a wide-table column label, as the sort key of `size_cols`. -/
def labelRat : ColLabel → Rat
  | .num q => q
  | .int n => (n : Rat)
  | .str _ => 0

/-- `sorted(size_cols, key=float)`. -/
def sortCols (l : List (ColLabel × List Cell)) : List (ColLabel × List Cell) :=
  List.insertionSort (fun a b => labelRat a.1 ≤ labelRat b.1) l

/-- The `rename` with `{c: nice_header(float(c)) for c in size_cols}`:
pivot columns carry `.num` labels and get renamed, other labels are untouched. -/
def renameLabel : ColLabel → ColLabel
  | .num q => nice_header q
  | l => l

/-- Number of rows of the wide table. -/
def nrows : WideT → Nat
  | [] => 0
  | c :: _ => c.2.length

/-- int64 content of a wide cell. -/
def cellInt : Cell → Int
  | .int n => n
  | .str _ => 0

/-- `wide.insert(1, "TOT", wide[num_cols].sum(axis=1).astype(int))`: the TOT
column, inserted at position 1, holds each row-wise sum over the non-key
columns; the cells are already int64, so `astype(int)` is the identity. -/
def insertTot (w : WideT) (sku_col : String) : WideT :=
  let numCols := w.filter (fun c => !(decide (c.1 = ColLabel.str sku_col)))
  let tot := (List.range (nrows w)).map
    (fun i => Cell.int ((numCols.map (fun c => cellInt (c.2.getD i (Cell.int 0)))).sum))
  w.take 1 ++ [(ColLabel.str "TOT", tot)] ++ w.drop 1

deriving instance DecidableEq for Except

/-- A failed pandas column access raises `KeyError(c)`. -/
def orKeyErr (o : Option α) (c : String) : Except String α :=
  match o with
  | some a => Except.ok a
  | none => Except.error c

/-- `.between(size_min, size_max, inclusive="both")` on one cell of the
`_size_norm` column: `NaN` is never between. -/
def betweenBoth (mn mx : Rat) (v : Value) : Bool :=
  match v with
  | .num q => decide (mn ≤ q) && decide (q ≤ mx)
  | _ => false

/-- The `_size_norm` cell produced by `apply(normalize_size)`. -/
def sizeNormCell (parseDate : String → Option Int) (v : Value) : Value :=
  match normalize_size parseDate v with
  | some q => .num q
  | none => .missing

/-- `to_wide` from the source, statement by statement, also returning the
caller's table as it stands after the call.  `d = df.copy()` makes `d` an
independent copy; every later statement rebinds `d` only. -/
def to_wideS (df : Table) (sku_col size_col qty_col : String)
    (size_min size_max : Rat) (add_tot : Bool)
    (parseDate : String → Option Int) : Except String (WideT × Table) := do
  let d := df
  let d ← orKeyErr (mapCol d sku_col (fun v => .str (pyStrip (pyStr v)))) sku_col
  let d ← orKeyErr (filterOn d sku_col
    (fun v => !(pyIsna v) && !(decide (v = Value.str "")))) sku_col
  let d ← orKeyErr (mapCol d qty_col (fun v => .int (coerce_qty v))) qty_col
  let d ← orKeyErr (applyNewCol d size_col "_size_norm" (sizeNormCell parseDate)) size_col
  let d ← orKeyErr (filterOn d "_size_norm" (betweenBoth size_min size_max)) "_size_norm"
  let wide ← orKeyErr (pivot_table d sku_col "_size_norm" qty_col) "pivot"
  let wide := wide.filter (fun c => decide (c.1 = ColLabel.str sku_col)) ++
    sortCols (wide.filter (fun c => !(decide (c.1 = ColLabel.str sku_col))))
  let wide := wide.map
    (fun c => if c.1 = ColLabel.str sku_col then c else (renameLabel c.1, c.2))
  let wide := if add_tot then insertTot wide sku_col else wide
  return (wide, df)

/-- The wide table `to_wide` returns. -/
def to_wide (df : Table) (sku_col size_col qty_col : String)
    (size_min size_max : Rat) (add_tot : Bool)
    (parseDate : String → Option Int) : Except String WideT :=
  (to_wideS df sku_col size_col qty_col size_min size_max add_tot parseDate).map Prod.fst

/-- Trimmed text key of one input row (`astype(str).str.strip()`). -/
def rowKey (si : Nat) (r : List Value) : String := pyStrip (pyStr (r.getD si .missing))

/-- Canonical size of one input row. -/
def rowSize (parseDate : String → Option Int) (zi : Nat) (r : List Value) : Option Rat :=
  normalize_size parseDate (r.getD zi .missing)

/-- Coerced quantity of one input row. -/
def rowQty (qi : Nat) (r : List Value) : Int := coerce_qty (r.getD qi .missing)

/-- The row survives both filters of `to_wide`: its text key is non-empty
after trimming (a missing key reads as the text "nan" and survives) and its
canonical size lies inside the accepted range. -/
def keptRow (parseDate : String → Option Int) (mn mx : Rat) (si zi : Nat)
    (r : List Value) : Bool :=
  !(decide (rowKey si r = "")) && betweenBoth mn mx (sizeNormCell parseDate (r.getD zi .missing))

/-- The kept rows of the input, reduced to (key, canonical size, quantity). -/
def procRows (parseDate : String → Option Int) (mn mx : Rat) (si zi qi : Nat)
    (rows : List (List Value)) : List (String × Rat × Int) :=
  (rows.filter (keptRow parseDate mn mx si zi)).map
    (fun r => (rowKey si r, (rowSize parseDate zi r).getD 0, rowQty qi r))

/-- Group sum over the processed rows of one `(key, size)` pair. -/
def cellSumP (prs : List (String × Rat × Int)) (k : String) (s : Rat) : Int :=
  ((prs.filter (fun p => decide (p.1 = k) && decide (p.2.1 = s))).map (fun p => p.2.2)).sum

/-- Closed form of the wide table in terms of the processed rows; proved equal
to the output of `to_wide` in `to_wideS_eq_buildWide`. -/
def buildWide (sku_col : String) (add_tot : Bool)
    (prs : List (String × Rat × Int)) : WideT :=
  let keys := sortStr (prs.map Prod.fst).dedup
  let sizes := sortRat (prs.map (fun p => p.2.1)).dedup
  let base := (ColLabel.str sku_col, keys.map Cell.str) ::
    sizes.map (fun s => (nice_header s, keys.map (fun k => Cell.int (cellSumP prs k s))))
  if add_tot then
    base.take 1 ++ [(ColLabel.str "TOT",
      keys.map (fun k => Cell.int ((sizes.map (cellSumP prs k)).sum)))] ++ base.drop 1
  else base

/-- The raw pivot of the processed rows, before reorder/rename/TOT: the key
column followed by one `.num`-labelled column per distinct canonical size. -/
def pivotRaw (sku_col : String) (prs : List (String × Rat × Int)) : WideT :=
  let keys := sortStr (prs.map Prod.fst).dedup
  let sizes := sortRat (prs.map (fun p => p.2.1)).dedup
  (ColLabel.str sku_col, keys.map Cell.str) ::
    sizes.map (fun s => (ColLabel.num s, keys.map (fun k => Cell.int (cellSumP prs k s))))

/-- The image of one kept input row inside the working table `d` right before
the pivot: key cell trimmed text, quantity cell coerced int, `_size_norm`
appended. -/
def procCell (parseDate : String → Option Int) (si zi qi : Nat) (r : List Value) :
    List Value :=
  ((r.set si (.str (rowKey si r))).set qi (.int (rowQty qi r))) ++
    [sizeNormCell parseDate (r.getD zi .missing)]

/-- Sum of every quantity cell of the wide table, the TOT column excluded. -/
def sizeCellsSum (w : WideT) (sku_col : String) : Int :=
  ((w.filter (fun c => !(decide (c.1 = ColLabel.str sku_col)) &&
      !(decide (c.1 = ColLabel.str "TOT")))).map
    (fun c => (c.2.map cellInt).sum)).sum

/-- Sum of the coerced quantities of the input rows kept by both filters. -/
def keptQtySum (parseDate : String → Option Int) (mn mx : Rat) (si zi qi : Nat)
    (rows : List (List Value)) : Int :=
  ((rows.filter (keptRow parseDate mn mx si zi)).map (rowQty qi)).sum

/-- The end-to-end scenario table of the spec: `[("A1", 6, 3), ("A1", "6,5", 2),
("A1", 7, 0), ("B1", 6, 5)]`. -/
def exTable : Table := ⟨["sku", "size", "qty"],
  [[.str "A1", .int 6, .int 3], [.str "A1", .str "6,5", .int 2],
   [.str "A1", .int 7, .int 0], [.str "B1", .int 6, .int 5]]⟩

/-- The wide table `to_wide` produces on `exTable`. -/
def exWide : WideT :=
  [(.str "sku", [.str "A1", .str "B1"]), (.str "TOT", [.int 5, .int 5]),
   (.int 6, [.int 3, .int 5]), (.num (mkRat 13 2), [.int 2, .int 0]),
   (.int 7, [.int 0, .int 0])]

/-- A one-row table whose item key is missing. -/
def exMissingKey : Table := ⟨["sku", "size", "qty"], [[.missing, .int 6, .int 5]]⟩

/-- Boundary sizes 0, 20 and 20.0001, plus an unparsable size "x". -/
def exRange : Table := ⟨["sku", "size", "qty"],
  [[.str "A", .int 0, .int 1], [.str "A", .int 20, .int 2],
   [.str "A", .num (mkRat 200001 10000), .int 4], [.str "A", .str "x", .int 8]]⟩

/-- Two rows with fractional quantity 2.7 each. -/
def exFrac : Table := ⟨["sku", "size", "qty"],
  [[.str "A", .int 6, .num (mkRat 27 10)], [.str "A", .int 6, .num (mkRat 27 10)]]⟩

/-- One quantity that fails numeric coercion. -/
def exBadQty : Table := ⟨["sku", "size", "qty"],
  [[.str "A", .int 6, .str "abc"], [.str "A", .int 7, .int 2]]⟩

theorem sum_map_zero {α : Type} (l : List α) :
    (l.map (fun _ => (0 : Int))).sum = 0 := by
  induction l with
  | nil => rfl
  | cons a l ih => simp [ih]

theorem sum_map_ite_mem {β : Type} [DecidableEq β] (keys : List β) (x : β) (a : Int)
    (g : β → Int) (hnd : keys.Nodup) (hx : x ∈ keys) :
    (keys.map (fun k => if x = k then a + g k else g k)).sum = a + (keys.map g).sum := by
  induction keys with
  | nil => cases hx
  | cons k ks ih =>
    rcases List.nodup_cons.mp hnd with ⟨hk, hnd'⟩
    by_cases hxk : x = k
    · subst hxk
      have hmap : ks.map (fun j => if x = j then a + g j else g j) = ks.map g := by
        apply List.map_congr_left
        intro b hb
        rw [if_neg (by rintro rfl; exact hk hb)]
      simp only [List.map_cons, List.sum_cons, hmap, if_true]
      ring
    · have hx' : x ∈ ks := by
        rcases List.mem_cons.mp hx with h | h
        · exact absurd h hxk
        · exact h
      simp only [List.map_cons, List.sum_cons, if_neg hxk, ih hnd' hx']
      ring

theorem sum_filter_partition {α β : Type} [DecidableEq β] (f : α → Int) (key : α → β)
    (keys : List β) (rows : List α) (hnd : keys.Nodup)
    (hmem : ∀ r ∈ rows, key r ∈ keys) :
    (keys.map (fun k => ((rows.filter (fun r => decide (key r = k))).map f).sum)).sum
      = (rows.map f).sum := by
  induction rows with
  | nil => simp [sum_map_zero]
  | cons r rs ih =>
    have hr : key r ∈ keys := hmem r (List.mem_cons_self r rs)
    have hrest : ∀ x ∈ rs, key x ∈ keys := fun x hx => hmem x (List.mem_cons_of_mem r hx)
    have hstep : ∀ k, ((List.filter (fun x => decide (key x = k)) (r :: rs)).map f).sum
        = if key r = k then f r + ((List.filter (fun x => decide (key x = k)) rs).map f).sum
          else ((List.filter (fun x => decide (key x = k)) rs).map f).sum := by
      intro k
      by_cases h : key r = k
      · rw [List.filter_cons_of_pos (by simpa using h), if_pos h, List.map_cons, List.sum_cons]
      · rw [List.filter_cons_of_neg (by simpa using h), if_neg h]
    have hmapc : keys.map (fun k => ((List.filter (fun x => decide (key x = k)) (r :: rs)).map f).sum)
        = keys.map (fun k => if key r = k then
            f r + ((List.filter (fun x => decide (key x = k)) rs).map f).sum
          else ((List.filter (fun x => decide (key x = k)) rs).map f).sum) := by
      apply List.map_congr_left
      intro k _
      exact hstep k
    rw [hmapc, sum_map_ite_mem keys (key r) (f r) _ hnd hr, ih hrest, List.map_cons,
      List.sum_cons]

theorem range_map_getD {α β : Type} (g : α → β) (l : List α) (d : α) :
    (List.range l.length).map (fun i => g (l.getD i d)) = l.map g := by
  induction l with
  | nil => rfl
  | cons a l ih =>
    simp only [List.length_cons, List.range_succ_eq_map, List.map_cons, List.map_map,
      Function.comp_def, List.getD_cons_zero, List.getD_cons_succ]
    rw [ih]

end VertToOrizz

namespace VertToOrizz

/-! ### Basic bridges and list helpers -/

theorem ratSub_eq (a b : Rat) : ratSub a b = a - b := by
  rw [ratSub, Rat.sub_def, Rat.normalize_eq_mkRat]

theorem ratAbs_eq (q : Rat) : ratAbs q = |q| := by
  rw [ratAbs]
  rcases lt_or_le q 0 with h | h
  · simp [h, abs_of_neg h]
  · simp [not_lt.mpr h, abs_of_nonneg h]

theorem getD_set_self {α : Type} {l : List α} {i : Nat} (h : i < l.length) (v d : α) :
    (l.set i v).getD i d = v := by
  simp [List.getD_eq_getElem?_getD, List.getElem?_set, h]

theorem getD_set_ne {α : Type} (l : List α) {i j : Nat} (h : i ≠ j) (v d : α) :
    (l.set i v).getD j d = l.getD j d := by
  simp [List.getD_eq_getElem?_getD, List.getElem?_set, h]

theorem getD_append_lt {α : Type} {l₁ l₂ : List α} {i : Nat} (h : i < l₁.length) (d : α) :
    (l₁ ++ l₂).getD i d = l₁.getD i d := by
  simp [List.getD_eq_getElem?_getD, List.getElem?_append_left h]

theorem getD_concat_len {α : Type} (l : List α) (v d : α) :
    (l ++ [v]).getD l.length d = v := by
  simp [List.getD_eq_getElem?_getD, List.getElem?_concat_length]

theorem colIdx_eq_none_iff (cols : List String) (c : String) :
    colIdx cols c = none ↔ c ∉ cols := by
  induction cols with
  | nil => simp [colIdx]
  | cons a as ih =>
    by_cases h : a = c
    · simp [colIdx, h]
    · rw [colIdx, if_neg h, Option.map_eq_none', ih, List.mem_cons]
      simp [Ne.symm h]

theorem colIdx_lt_length {cols : List String} {c : String} {i : Nat}
    (h : colIdx cols c = some i) : i < cols.length := by
  induction cols generalizing i with
  | nil => cases h
  | cons a as ih =>
    rw [List.length_cons]
    by_cases ha : a = c
    · rw [colIdx, if_pos ha] at h
      cases h
      exact Nat.succ_pos _
    · rw [colIdx, if_neg ha, Option.map_eq_some'] at h
      obtain ⟨j, hj, hji⟩ := h
      have := ih hj
      omega

theorem colIdx_getD {cols : List String} {c : String} {i : Nat}
    (h : colIdx cols c = some i) (d : String) : cols.getD i d = c := by
  induction cols generalizing i with
  | nil => cases h
  | cons a as ih =>
    by_cases ha : a = c
    · rw [colIdx, if_pos ha] at h
      cases h
      simpa using ha
    · rw [colIdx, if_neg ha, Option.map_eq_some'] at h
      obtain ⟨j, hj, hji⟩ := h
      subst hji
      simpa using ih hj

theorem colIdx_append {cols : List String} {c : String} {i : Nat}
    (h : colIdx cols c = some i) (l : List String) : colIdx (cols ++ l) c = some i := by
  induction cols generalizing i with
  | nil => cases h
  | cons a as ih =>
    by_cases ha : a = c
    · rw [colIdx, if_pos ha] at h
      cases h
      simp [colIdx, if_pos ha]
    · rw [colIdx, if_neg ha, Option.map_eq_some'] at h
      obtain ⟨j, hj, hji⟩ := h
      subst hji
      rw [List.cons_append, colIdx, if_neg ha, ih hj, Option.map_some']

theorem colIdx_concat_self {cols : List String} {c : String}
    (h : colIdx cols c = none) : colIdx (cols ++ [c]) c = some cols.length := by
  induction cols with
  | nil => simp [colIdx]
  | cons a as ih =>
    by_cases ha : a = c
    · rw [colIdx, if_pos ha] at h
      cases h
    · rw [colIdx, if_neg ha, Option.map_eq_none'] at h
      rw [List.cons_append, colIdx, if_neg ha, ih h, Option.map_some', List.length_cons]

/-! ### The pipeline in closed form -/

theorem asRat_sizeNormCell (parseDate : String → Option Int) (v : Value) :
    Value.asRat (sizeNormCell parseDate v) = (normalize_size parseDate v).getD 0 := by
  rw [sizeNormCell]
  cases normalize_size parseDate v <;> rfl

theorem getD_snoc_eq_len {α : Type} {l : List α} {i : Nat} (h : l.length = i) (v d : α) :
    (l ++ [v]).getD i d = v := by
  subst h
  exact getD_concat_len l v d

theorem map_filter_congr {α β : Type} {f g : α → β} {p q : α → Bool} (l : List α)
    (hp : ∀ x ∈ l, p x = q x) (hf : ∀ x ∈ l, f x = g x) :
    (l.filter p).map f = (l.filter q).map g := by
  induction l with
  | nil => rfl
  | cons a l ih =>
    have hpa := hp a (List.mem_cons_self a l)
    have hfa := hf a (List.mem_cons_self a l)
    have ih' := ih (fun x hx => hp x (List.mem_cons_of_mem a hx))
      (fun x hx => hf x (List.mem_cons_of_mem a hx))
    by_cases hqa : q a = true
    · rw [List.filter_cons_of_pos (hpa.trans hqa), List.filter_cons_of_pos hqa,
        List.map_cons, List.map_cons, hfa, ih']
    · have hqa' : q a = false := by
        cases hq : q a
        · rfl
        · exact absurd hq hqa
      rw [List.filter_cons_of_neg (by rw [hpa, hqa']; exact Bool.false_ne_true),
        List.filter_cons_of_neg (by rw [hqa']; exact Bool.false_ne_true), ih']

theorem rows_pipeline (parseDate : String → Option Int) (mn mx : Rat) (si zi qi n : Nat)
    (hsi : si < n) (hqi : qi < n) (hsz : si ≠ zi) (hsq : si ≠ qi) (hzq : zi ≠ qi)
    (rows : List (List Value)) (hlen : ∀ r ∈ rows, r.length = n) :
    ((((rows.map (fun r => r.set si (.str (pyStrip (pyStr (r.getD si .missing)))))).filter
        (fun r => !(pyIsna (r.getD si .missing)) &&
          !(decide (r.getD si .missing = Value.str "")))).map
      (fun r => r.set qi (.int (coerce_qty (r.getD qi .missing))))).map
      (fun r => r ++ [sizeNormCell parseDate (r.getD zi .missing)])).filter
      (fun r => betweenBoth mn mx (r.getD n .missing))
    = (rows.filter (keptRow parseDate mn mx si zi)).map (procCell parseDate si zi qi) := by
  rw [List.filter_map (fun r => r.set si (.str (pyStrip (pyStr (r.getD si .missing))))) rows,
    List.map_map, List.map_map, List.filter_map, List.filter_filter]
  have hpt : ∀ r ∈ rows,
      (((fun x => betweenBoth mn mx (x.getD n .missing)) ∘
          ((fun x => x ++ [sizeNormCell parseDate (x.getD zi .missing)]) ∘
            ((fun x => x.set qi (.int (coerce_qty (x.getD qi .missing)))) ∘
            (fun x => x.set si (.str (pyStrip (pyStr (x.getD si .missing)))))))) r &&
        ((fun x => !(pyIsna (x.getD si .missing)) &&
          !(decide (x.getD si .missing = Value.str ""))) ∘
          (fun x => x.set si (.str (pyStrip (pyStr (x.getD si .missing)))))) r)
      = keptRow parseDate mn mx si zi r := by
    intro r hr
    have hrl : r.length = n := hlen r hr
    have hsi' : si < r.length := by omega
    simp only [Function.comp_apply]
    rw [getD_set_self hsi']
    rw [getD_set_ne _ hsq]
    rw [getD_set_ne _ (by omega : qi ≠ zi), getD_set_ne _ hsz]
    rw [getD_snoc_eq_len (by simp only [List.length_set]; exact hrl)]
    rw [keptRow, rowKey]
    simp only [pyIsna, Bool.not_false, Bool.true_and, decide_eq_true_eq, Value.str.injEq]
    rw [Bool.and_comm]
  refine map_filter_congr rows hpt ?_
  intro r hrmem
  have hrl : r.length = n := hlen r hrmem
  have hsi' : si < r.length := by omega
  simp only [Function.comp_apply]
  rw [procCell, rowQty, rowKey]
  rw [getD_set_ne _ hsq]
  rw [getD_set_ne _ (by omega : qi ≠ zi), getD_set_ne _ hsz]


theorem pivot_on_proc (parseDate : String → Option Int) (mn mx : Rat) (si zi qi : Nat)
    (cols : List String) (sku_col qty_col : String)
    (hsku : colIdx cols sku_col = some si)
    (hqty : colIdx cols qty_col = some qi)
    (hns : colIdx cols "_size_norm" = none)
    (hsz : si ≠ zi) (hsq : si ≠ qi)
    (rows : List (List Value)) (hlen : ∀ r ∈ rows, r.length = cols.length) :
    pivot_table ⟨cols ++ ["_size_norm"],
        (rows.filter (keptRow parseDate mn mx si zi)).map (procCell parseDate si zi qi)⟩
      sku_col "_size_norm" qty_col
    = some (pivotRaw sku_col (procRows parseDate mn mx si zi qi rows)) := by
  have hsi : si < cols.length := colIdx_lt_length hsku
  have hqi : qi < cols.length := colIdx_lt_length hqty
  have hkeys : (((rows.filter (keptRow parseDate mn mx si zi)).map
        (procCell parseDate si zi qi)).map (fun r => pyStr (r.getD si .missing)))
      = (procRows parseDate mn mx si zi qi rows).map Prod.fst := by
    rw [procRows, List.map_map, List.map_map]
    apply List.map_congr_left
    intro r hr
    have hrl := hlen r (List.mem_of_mem_filter hr)
    simp only [Function.comp_apply, procCell]
    rw [getD_append_lt (by rw [List.length_set, List.length_set]; omega)]
    rw [getD_set_ne _ (Ne.symm hsq), getD_set_self (by omega)]
    rfl
  have hsizes : (((rows.filter (keptRow parseDate mn mx si zi)).map
        (procCell parseDate si zi qi)).map (fun r => Value.asRat (r.getD cols.length .missing)))
      = (procRows parseDate mn mx si zi qi rows).map (fun p => p.2.1) := by
    rw [procRows, List.map_map, List.map_map]
    apply List.map_congr_left
    intro r hr
    have hrl := hlen r (List.mem_of_mem_filter hr)
    simp only [Function.comp_apply, procCell]
    rw [getD_snoc_eq_len (by simp only [List.length_set]; omega)]
    rw [asRat_sizeNormCell]
    rfl
  have hcells : ∀ k s,
      cellSum ((rows.filter (keptRow parseDate mn mx si zi)).map
        (procCell parseDate si zi qi)) si cols.length qi k s
      = cellSumP (procRows parseDate mn mx si zi qi rows) k s := by
    intro k s
    rw [cellSum, cellSumP, procRows, List.filter_map, List.map_map, List.filter_map,
      List.map_map]
    apply congrArg List.sum
    apply map_filter_congr
    · intro r hr
      have hrl := hlen r (List.mem_of_mem_filter hr)
      simp only [Function.comp_apply, procCell]
      have e1 : ((r.set si (Value.str (rowKey si r))).set qi (Value.int (rowQty qi r)) ++
          [sizeNormCell parseDate (r.getD zi .missing)]).getD si .missing
          = Value.str (rowKey si r) := by
        rw [getD_append_lt (by rw [List.length_set, List.length_set]; omega)]
        rw [getD_set_ne _ (Ne.symm hsq)]
        exact getD_set_self (by omega) _ _
      have e2 : ((r.set si (Value.str (rowKey si r))).set qi (Value.int (rowQty qi r)) ++
          [sizeNormCell parseDate (r.getD zi .missing)]).getD cols.length .missing
          = sizeNormCell parseDate (r.getD zi .missing) :=
        getD_snoc_eq_len (by simp only [List.length_set]; omega) _ _
      simp only [e1, e2, asRat_sizeNormCell, pyStr]
      rfl
    · intro r hr
      have hrl := hlen r (List.mem_of_mem_filter hr)
      simp only [Function.comp_apply, procCell]
      rw [getD_append_lt (by rw [List.length_set, List.length_set]; omega)]
      rw [getD_set_self (by rw [List.length_set]; omega)]
      rfl
  rw [pivot_table]
  rw [colIdx_append hsku, colIdx_concat_self hns, colIdx_append hqty]
  rw [pivotRaw]
  apply congrArg some
  apply congrArg₂ List.cons
  · rw [hkeys]
  · rw [hsizes]
    apply List.map_congr_left
    intro s _
    apply congrArg (Prod.mk (ColLabel.num s))
    rw [hkeys]
    apply List.map_congr_left
    intro k _
    rw [hcells k s]

theorem nice_header_ne_str (q : Rat) (t : String) : nice_header q ≠ ColLabel.str t := by
  rw [nice_header]
  split
  · intro h; cases h
  · intro h; cases h

theorem getD_map_lt {α β : Type} (f : α → β) {l : List α} {i : Nat} (h : i < l.length)
    (d : β) (da : α) : (l.map f).getD i d = f (l.getD i da) := by
  rw [List.getD_eq_getElem?_getD, List.getD_eq_getElem?_getD, List.getElem?_map,
    List.getElem?_eq_getElem h]
  rfl

theorem post_pivot (sku_col : String) (add_tot : Bool)
    (prs : List (String × Rat × Int)) :
    (fun w0 =>
      (fun w1 =>
        (fun w2 => if add_tot then insertTot w2 sku_col else w2)
        (w1.map (fun c => if c.1 = ColLabel.str sku_col then c else (renameLabel c.1, c.2))))
      (w0.filter (fun c => decide (c.1 = ColLabel.str sku_col)) ++
        sortCols (w0.filter (fun c => !(decide (c.1 = ColLabel.str sku_col))))))
      (pivotRaw sku_col prs)
    = buildWide sku_col add_tot prs := by
  simp only []
  rw [pivotRaw]
  set keys := sortStr (prs.map Prod.fst).dedup with hkeys
  set sizes := sortRat (prs.map (fun p => p.2.1)).dedup with hsizes
  set cellsOf := fun s => keys.map (fun k => Cell.int (cellSumP prs k s)) with hcells
  have hsorted : List.Sorted (fun a b => a ≤ b) sizes := by
    rw [hsizes, sortRat]
    exact List.sorted_insertionSort _ _
  have hfilpos : ((ColLabel.str sku_col, keys.map Cell.str) ::
      sizes.map (fun s => (ColLabel.num s, cellsOf s))).filter
        (fun c => decide (c.1 = ColLabel.str sku_col))
      = [(ColLabel.str sku_col, keys.map Cell.str)] := by
    rw [List.filter_cons_of_pos (by simp)]
    rw [List.filter_map]
    have : (sizes.filter ((fun c => decide (c.1 = ColLabel.str sku_col)) ∘
        (fun s => (ColLabel.num s, cellsOf s)))) = [] := by
      rw [List.filter_eq_nil_iff]
      intro a _
      simp
    rw [this, List.map_nil]
  have hfilneg : ((ColLabel.str sku_col, keys.map Cell.str) ::
      sizes.map (fun s => (ColLabel.num s, cellsOf s))).filter
        (fun c => !(decide (c.1 = ColLabel.str sku_col)))
      = sizes.map (fun s => (ColLabel.num s, cellsOf s)) := by
    rw [List.filter_cons_of_neg (by simp)]
    rw [List.filter_eq_self]
    intro c hc
    rcases List.mem_map.mp hc with ⟨a, _, ha⟩
    subst ha
    simp
  have hsortid : sortCols (sizes.map (fun s => (ColLabel.num s, cellsOf s)))
      = sizes.map (fun s => (ColLabel.num s, cellsOf s)) := by
    rw [sortCols]
    apply List.Sorted.insertionSort_eq
    exact List.Pairwise.map _ (fun a b hab => by simpa [labelRat] using hab) hsorted
  rw [hfilpos, hfilneg, hsortid]
  rw [List.cons_append, List.nil_append, List.map_cons]
  rw [if_pos rfl, List.map_map]
  have hren : sizes.map ((fun c => if c.1 = ColLabel.str sku_col then c
      else (renameLabel c.1, c.2)) ∘ (fun s => (ColLabel.num s, cellsOf s)))
      = sizes.map (fun s => (nice_header s, cellsOf s)) := by
    apply List.map_congr_left
    intro a _
    simp only [Function.comp_apply]
    rw [if_neg (by intro h; cases h)]
    rfl
  rw [hren, buildWide]
  by_cases htot : add_tot
  · rw [if_pos htot, if_pos htot, insertTot]
    have hnum : ((ColLabel.str sku_col, keys.map Cell.str) ::
        sizes.map (fun s => (nice_header s, cellsOf s))).filter
          (fun c => !(decide (c.1 = ColLabel.str sku_col)))
        = sizes.map (fun s => (nice_header s, cellsOf s)) := by
      rw [List.filter_cons_of_neg (by simp)]
      rw [List.filter_eq_self]
      intro c hc
      rcases List.mem_map.mp hc with ⟨a, _, ha⟩
      subst ha
      simp [nice_header_ne_str]
    rw [hnum]
    have hnr : nrows ((ColLabel.str sku_col, keys.map Cell.str) ::
        sizes.map (fun s => (nice_header s, cellsOf s))) = keys.length := by
      rw [nrows, List.length_map]
    rw [hnr]
    have htotcol : (List.range keys.length).map (fun i => Cell.int
        (((sizes.map (fun s => (nice_header s, cellsOf s))).map
          (fun c => cellInt (c.2.getD i (Cell.int 0)))).sum))
        = keys.map (fun k => Cell.int ((sizes.map (cellSumP prs k)).sum)) := by
      rw [← range_map_getD (fun k => Cell.int ((sizes.map (cellSumP prs k)).sum)) keys ""]
      apply List.map_congr_left
      intro i hi
      have hilt : i < keys.length := List.mem_range.mp (by simpa using hi)
      apply congrArg Cell.int
      rw [List.map_map]
      apply congrArg List.sum
      apply List.map_congr_left
      intro a _
      simp only [Function.comp_apply, hcells]
      rw [getD_map_lt _ hilt _ ""]
      rfl
    rw [htotcol]
  · rw [if_neg htot, if_neg htot]
/-- Master refinement: under well-formed column selections, `to_wide` runs the
whole statement pipeline and produces exactly the closed-form wide table of
the processed rows, leaving the caller's table untouched. -/
theorem to_wideS_eq_buildWide (cols : List String) (rows : List (List Value))
    (sku_col size_col qty_col : String)
    (mn mx : Rat) (add_tot : Bool) (parseDate : String → Option Int) (si zi qi : Nat)
    (hsku : colIdx cols sku_col = some si)
    (hsize : colIdx cols size_col = some zi)
    (hqty : colIdx cols qty_col = some qi)
    (hns : colIdx cols "_size_norm" = none)
    (hsz : si ≠ zi) (hsq : si ≠ qi) (hzq : zi ≠ qi)
    (hrect : ∀ r ∈ rows, r.length = cols.length) :
    to_wideS ⟨cols, rows⟩ sku_col size_col qty_col mn mx add_tot parseDate =
      .ok (buildWide sku_col add_tot (procRows parseDate mn mx si zi qi rows),
        ⟨cols, rows⟩) := by
  simp only [to_wideS, bind, Except.bind, orKeyErr, mapCol, filterOn, applyNewCol,
    hsku, hsize, hqty, hns, colIdx_concat_self hns, pure, Except.pure]
  rw [rows_pipeline parseDate mn mx si zi qi cols.length (colIdx_lt_length hsku)
    (colIdx_lt_length hqty) hsz hsq hzq rows hrect]
  rw [pivot_on_proc parseDate mn mx si zi qi cols sku_col qty_col hsku hqty hns hsz hsq
    rows hrect]
  exact congrArg (fun x => Except.ok (x, Table.mk cols rows))
    (post_pivot sku_col add_tot (procRows parseDate mn mx si zi qi rows))

/-- The same closed form for the returned wide table alone. -/
theorem to_wide_eq_buildWide (cols : List String) (rows : List (List Value))
    (sku_col size_col qty_col : String)
    (mn mx : Rat) (add_tot : Bool) (parseDate : String → Option Int) (si zi qi : Nat)
    (hsku : colIdx cols sku_col = some si)
    (hsize : colIdx cols size_col = some zi)
    (hqty : colIdx cols qty_col = some qi)
    (hns : colIdx cols "_size_norm" = none)
    (hsz : si ≠ zi) (hsq : si ≠ qi) (hzq : zi ≠ qi)
    (hrect : ∀ r ∈ rows, r.length = cols.length) :
    to_wide ⟨cols, rows⟩ sku_col size_col qty_col mn mx add_tot parseDate =
      .ok (buildWide sku_col add_tot (procRows parseDate mn mx si zi qi rows)) := by
  rw [to_wide, to_wideS_eq_buildWide cols rows sku_col size_col qty_col mn mx add_tot
    parseDate si zi qi hsku hsize hqty hns hsz hsq hzq hrect]
  rfl

/-! ### Conservation of quantities -/

theorem nodup_sortStr_dedup (l : List String) : (sortStr l.dedup).Nodup :=
  (List.perm_insertionSort _ _).nodup_iff.mpr (List.nodup_dedup l)

theorem mem_sortStr_dedup {a : String} {l : List String} :
    a ∈ sortStr l.dedup ↔ a ∈ l :=
  (List.perm_insertionSort _ _).mem_iff.trans List.mem_dedup

theorem nodup_sortRat_dedup (l : List Rat) : (sortRat l.dedup).Nodup :=
  (List.perm_insertionSort _ _).nodup_iff.mpr (List.nodup_dedup l)

theorem mem_sortRat_dedup {a : Rat} {l : List Rat} :
    a ∈ sortRat l.dedup ↔ a ∈ l :=
  (List.perm_insertionSort _ _).mem_iff.trans List.mem_dedup

theorem sizeCellsSum_buildWide (sku_col : String) (add_tot : Bool)
    (prs : List (String × Rat × Int)) :
    sizeCellsSum (buildWide sku_col add_tot prs) sku_col
      = (prs.map (fun p => p.2.2)).sum := by
  rw [buildWide, sizeCellsSum]
  set keys := sortStr (prs.map Prod.fst).dedup with hkeys
  set sizes := sortRat (prs.map (fun p => p.2.1)).dedup with hsizes
  have hfilsz : (sizes.map (fun s => (nice_header s,
      keys.map (fun k => Cell.int (cellSumP prs k s))))).filter
        (fun c => !(decide (c.1 = ColLabel.str sku_col)) &&
          !(decide (c.1 = ColLabel.str "TOT")))
      = sizes.map (fun s => (nice_header s, keys.map (fun k => Cell.int (cellSumP prs k s)))) := by
    rw [List.filter_eq_self]
    intro c hc
    rcases List.mem_map.mp hc with ⟨a, _, ha⟩
    subst ha
    simp [nice_header_ne_str]
  have hcolsum : ∀ s, ((keys.map (fun k => Cell.int (cellSumP prs k s))).map cellInt).sum
      = ((prs.filter (fun p => decide (p.2.1 = s))).map (fun p => p.2.2)).sum := by
    intro s
    rw [List.map_map]
    have hmap : keys.map (cellInt ∘ fun k => Cell.int (cellSumP prs k s))
        = keys.map (fun k => (((prs.filter (fun p => decide (p.2.1 = s))).filter
            (fun p => decide (p.1 = k))).map (fun p => p.2.2)).sum) := by
      apply List.map_congr_left
      intro k _
      simp only [Function.comp_apply, cellInt, cellSumP]
      rw [List.filter_filter]
    rw [hmap]
    refine sum_filter_partition (fun p : String × Rat × Int => p.2.2) (fun p => p.1)
      keys _ (nodup_sortStr_dedup _) ?_
    intro r hr
    rw [hkeys, mem_sortStr_dedup]
    exact List.mem_map.mpr ⟨r, List.mem_of_mem_filter hr, rfl⟩
  by_cases htot : add_tot
  · rw [if_pos htot]
    simp only [List.take_succ_cons, List.take_zero, List.drop_succ_cons, List.drop_zero]
    rw [List.filter_append, List.filter_append, hfilsz]
    rw [List.filter_cons_of_neg (by simp), List.filter_cons_of_neg (by simp),
      List.filter_nil, List.nil_append, List.nil_append, List.map_map]
    have : sizes.map ((fun c => (c.2.map cellInt).sum) ∘ (fun s => (nice_header s,
        keys.map (fun k => Cell.int (cellSumP prs k s)))))
        = sizes.map (fun s => ((prs.filter (fun p => decide (p.2.1 = s))).map
            (fun p => p.2.2)).sum) := by
      apply List.map_congr_left
      intro s _
      simp only [Function.comp_apply]
      exact hcolsum s
    rw [this]
    refine sum_filter_partition (fun p : String × Rat × Int => p.2.2) (fun p => p.2.1)
      sizes prs (nodup_sortRat_dedup _) ?_
    intro r hr
    rw [hsizes, mem_sortRat_dedup]
    exact List.mem_map.mpr ⟨r, hr, rfl⟩
  · rw [if_neg htot]
    rw [List.filter_cons_of_neg (by simp), hfilsz, List.map_map]
    have : sizes.map ((fun c => (c.2.map cellInt).sum) ∘ (fun s => (nice_header s,
        keys.map (fun k => Cell.int (cellSumP prs k s)))))
        = sizes.map (fun s => ((prs.filter (fun p => decide (p.2.1 = s))).map
            (fun p => p.2.2)).sum) := by
      apply List.map_congr_left
      intro s _
      simp only [Function.comp_apply]
      exact hcolsum s
    rw [this]
    refine sum_filter_partition (fun p : String × Rat × Int => p.2.2) (fun p => p.2.1)
      sizes prs (nodup_sortRat_dedup _) ?_
    intro r hr
    rw [hsizes, mem_sortRat_dedup]
    exact List.mem_map.mpr ⟨r, hr, rfl⟩

theorem procRows_qty_sum (parseDate : String → Option Int) (mn mx : Rat) (si zi qi : Nat)
    (rows : List (List Value)) :
    ((procRows parseDate mn mx si zi qi rows).map (fun p => p.2.2)).sum
      = keptQtySum parseDate mn mx si zi qi rows := by
  rw [procRows, keptQtySum, List.map_map]
  rfl

/-! ### Success and failure shapes of the pipeline -/

theorem mapCol_some {t t' : Table} {c : String} {f : Value → Value}
    (h : mapCol t c f = some t') : t'.cols = t.cols ∧ c ∈ t.cols := by
  rw [mapCol] at h
  cases hx : colIdx t.cols c with
  | none => rw [hx] at h; cases h
  | some i =>
    rw [hx] at h
    injection h with h
    constructor
    · rw [← h]
    · by_contra hmem
      rw [← colIdx_eq_none_iff t.cols c] at hmem
      rw [hmem] at hx
      cases hx

theorem filterOn_some {t t' : Table} {c : String} {p : Value → Bool}
    (h : filterOn t c p = some t') : t'.cols = t.cols := by
  rw [filterOn] at h
  cases hx : colIdx t.cols c with
  | none => rw [hx] at h; cases h
  | some i =>
    rw [hx] at h
    injection h with h
    rw [← h]

theorem applyNewCol_some {t t' : Table} {src dst : String} {f : Value → Value}
    (h : applyNewCol t src dst f = some t') : src ∈ t.cols := by
  rw [applyNewCol] at h
  cases hx : colIdx t.cols src with
  | none => rw [hx] at h; cases h
  | some i =>
    by_contra hmem
    rw [← colIdx_eq_none_iff t.cols src] at hmem
    rw [hmem] at hx
    cases hx

theorem to_wideS_shape (df : Table) (sku_col size_col qty_col : String)
    (mn mx : Rat) (add_tot : Bool) (parseDate : String → Option Int) :
    (∃ e, to_wideS df sku_col size_col qty_col mn mx add_tot parseDate = .error e) ∨
    (∃ w, to_wideS df sku_col size_col qty_col mn mx add_tot parseDate = .ok (w, df) ∧
      sku_col ∈ df.cols ∧ size_col ∈ df.cols ∧ qty_col ∈ df.cols) := by
  rw [to_wideS]
  simp only [bind, Except.bind, orKeyErr]
  cases h1 : mapCol df sku_col (fun v => .str (pyStrip (pyStr v))) with
  | none => exact Or.inl ⟨sku_col, rfl⟩
  | some d1 =>
    obtain ⟨h1c, h1m⟩ := mapCol_some h1
    dsimp only
    cases h2 : filterOn d1 sku_col
        (fun v => !(pyIsna v) && !(decide (v = Value.str ""))) with
    | none => exact Or.inl ⟨sku_col, rfl⟩
    | some d2 =>
      have h2c := filterOn_some h2
      dsimp only
      cases h3 : mapCol d2 qty_col (fun v => .int (coerce_qty v)) with
      | none => exact Or.inl ⟨qty_col, rfl⟩
      | some d3 =>
        obtain ⟨h3c, h3m⟩ := mapCol_some h3
        dsimp only
        cases h4 : applyNewCol d3 size_col "_size_norm" (sizeNormCell parseDate) with
        | none => exact Or.inl ⟨size_col, rfl⟩
        | some d4 =>
          have h4m := applyNewCol_some h4
          dsimp only
          cases h5 : filterOn d4 "_size_norm" (betweenBoth mn mx) with
          | none => exact Or.inl ⟨"_size_norm", rfl⟩
          | some d5 =>
            dsimp only
            cases h6 : pivot_table d5 sku_col "_size_norm" qty_col with
            | none => exact Or.inl ⟨"pivot", rfl⟩
            | some wide =>
              dsimp only
              refine Or.inr ⟨_, rfl, h1m, ?_, ?_⟩
              · rw [← h1c, ← h2c, ← h3c]; exact h4m
              · rw [← h1c, ← h2c]; exact h3m

/-! ### Claims -/

/-- C9: `to_wide` never mutates the caller-supplied table.  The embedding
runs `d = df.copy()` and every later statement targets `d`, so on a
successful call the caller's table is returned unchanged. -/
theorem to_wide_never_mutates (df : Table) (sku_col size_col qty_col : String)
    (mn mx : Rat) (add_tot : Bool) (parseDate : String → Option Int)
    (p : WideT × Table)
    (h : to_wideS df sku_col size_col qty_col mn mx add_tot parseDate = .ok p) :
    p.2 = df := by
  rcases to_wideS_shape df sku_col size_col qty_col mn mx add_tot parseDate with
    ⟨e, he⟩ | ⟨w, hw, _⟩
  · rw [he] at h
    cases h
  · rw [hw] at h
    injection h with h
    rw [← h]

theorem to_wide_never_mutates_witness :
    to_wideS exTable "sku" "size" "qty" 0 20 true parseDateNone =
      Except.ok (exWide, exTable) ∧ (exWide, exTable).2 = exTable :=
  ⟨by decide, to_wide_never_mutates exTable "sku" "size" "qty" 0 20 true parseDateNone
    (exWide, exTable) (by decide)⟩

/-- C8: if any of the three named columns is absent from the input table,
`to_wide` surfaces an error (the pandas `KeyError`) and returns no wide
table at all. -/
theorem missing_column_errors (df : Table) (sku_col size_col qty_col : String)
    (mn mx : Rat) (add_tot : Bool) (parseDate : String → Option Int)
    (h : sku_col ∉ df.cols ∨ size_col ∉ df.cols ∨ qty_col ∉ df.cols) :
    ∃ e, to_wide df sku_col size_col qty_col mn mx add_tot parseDate = .error e := by
  rcases to_wideS_shape df sku_col size_col qty_col mn mx add_tot parseDate with
    ⟨e, he⟩ | ⟨w, hw, hm1, hm2, hm3⟩
  · exact ⟨e, by rw [to_wide, he]; rfl⟩
  · exfalso
    rcases h with h | h | h
    · exact h hm1
    · exact h hm2
    · exact h hm3

theorem missing_column_errors_witness :
    ("sizes" ∉ exTable.cols) ∧
    (∃ e, to_wide exTable "sku" "sizes" "qty" 0 20 true parseDateNone = .error e) :=
  ⟨by decide, missing_column_errors exTable "sku" "sizes" "qty" 0 20 true parseDateNone
    (Or.inr (Or.inl (by decide)))⟩

/-- C2 fails on the code: a row whose item key is missing is NOT excluded.
`astype(str)` turns the missing key into the literal text "nan" before the
`notna`/non-empty filter runs, so the row survives and the output contains a
row keyed "nan" carrying its full quantity. -/
theorem missing_key_row_survives :
    to_wide exMissingKey "sku" "size" "qty" 0 20 true parseDateNone =
      .ok [(.str "sku", [.str "nan"]), (.str "TOT", [.int 5]), (.int 6, [.int 5])] := by
  decide

/-- C5: the size-range filter of `to_wide` is inclusive on both ends and
drops unparsable sizes: the exact predicate applied to the `_size_norm`
column keeps `mn ≤ q ≤ mx`, never keeps `NaN`, a row whose size fails to
normalize is never kept, and on the boundary table only sizes 0 and 20
survive (20.0001 and the unparsable "x" are dropped). -/
theorem range_filter_inclusive :
    (∀ mn mx q : Rat, betweenBoth mn mx (Value.num q) =
      (decide (mn ≤ q) && decide (q ≤ mx))) ∧
    (∀ mn mx : Rat, betweenBoth mn mx Value.missing = false) ∧
    (∀ (parseDate : String → Option Int) (mn mx : Rat) (si zi : Nat) (r : List Value),
      rowSize parseDate zi r = none → keptRow parseDate mn mx si zi r = false) ∧
    betweenBoth 0 20 (Value.num 0) = true ∧
    betweenBoth 0 20 (Value.num 20) = true ∧
    betweenBoth 0 20 (Value.num (mkRat 200001 10000)) = false ∧
    to_wide exRange "sku" "size" "qty" 0 20 true parseDateNone =
      .ok [(.str "sku", [.str "A"]), (.str "TOT", [.int 3]),
           (.int 0, [.int 1]), (.int 20, [.int 2])] := by
  refine ⟨fun mn mx q => rfl, fun mn mx => rfl, ?_, by decide, by decide, by decide,
    by decide⟩
  intro parseDate mn mx si zi r hnone
  rw [rowSize] at hnone
  rw [keptRow, sizeNormCell, hnone]
  simp [betweenBoth]

theorem range_filter_inclusive_witness :
    betweenBoth 0 20 (Value.num 7) = (decide ((0 : Rat) ≤ 7) && decide ((7 : Rat) ≤ 20)) ∧
    keptRow parseDateNone 0 20 0 1 [Value.str "A", Value.str "x", Value.int 1] = false :=
  ⟨range_filter_inclusive.1 0 20 7,
   range_filter_inclusive.2.2.1 parseDateNone 0 20 0 1 _ (by decide)⟩

/-- C10: every successfully coerced quantity is truncated to an integer
per row, before grouping and summing: 2.7 becomes 2 (toward zero, so -2.7
becomes -2), two rows of 2.7 produce a cell of 4 (not trunc(5.4) = 5), and
every output cell including TOT is an int64. -/
theorem qty_truncated_per_row :
    truncToInt (mkRat 27 10) = 2 ∧
    truncToInt (mkRat (-27) 10) = -2 ∧
    coerce_qty (Value.str "2.7") = 2 ∧
    (∀ v : Value, coerce_qty v = truncToInt ((pyToNumeric v).getD 0)) ∧
    to_wide exFrac "sku" "size" "qty" 0 20 true parseDateNone =
      .ok [(.str "sku", [.str "A"]), (.str "TOT", [.int 4]), (.int 6, [.int 4])] ∧
    truncToInt (mkRat 54 10) = 5 :=
  ⟨by decide, by decide, by decide, fun v => rfl, by decide, by decide⟩

theorem qty_truncated_per_row_witness :
    coerce_qty (Value.num (mkRat 27 10)) =
      truncToInt ((pyToNumeric (Value.num (mkRat 27 10))).getD 0) :=
  qty_truncated_per_row.2.2.2.1 (Value.num (mkRat 27 10))

/-- C3 as stated is false: the numeric date-serial correction triggers on
`x > 1000`, not on `|x| > 1000`.  The value -2000 has magnitude above 1000
yet is returned unchanged rather than having the offset subtracted. -/
theorem magnitude_correction_counterexample :
    ((-2000 : Rat) < -1000) ∧
    normalize_size parseDateNone (Value.num (-2000)) = some (-2000) ∧
    ((-2000 : Rat) - ((SERIAL_OFFSET : Int) : Rat) ≠ (-2000 : Rat)) :=
  ⟨by decide, by decide, by norm_num [SERIAL_OFFSET]⟩

/-- C3 (amended): the date-serial correction is identical on both input
paths — a date with day offset 46150 and the raw number 46150 both
normalize to 9.0 — and a numeric value has the fixed constant subtracted
exactly when it exceeds 1000 (not when its magnitude does); values at most
1000 are returned as-is. -/
theorem serial_correction_amended (parseDate : String → Option Int) :
    normalize_size parseDate (Value.date 46150) = some 9 ∧
    normalize_size parseDate (Value.int 46150) = some 9 ∧
    normalize_size parseDate (Value.num 46150) = some 9 ∧
    (∀ q : Rat, q > 1000 →
      normalize_size parseDate (Value.num q) = some (q - ((SERIAL_OFFSET : Int) : Rat))) ∧
    (∀ q : Rat, q ≤ 1000 → normalize_size parseDate (Value.num q) = some q) ∧
    (∀ n : Int, ((n : Rat) > 1000 →
        normalize_size parseDate (Value.int n) = some ((n : Rat) - ((SERIAL_OFFSET : Int) : Rat))) ∧
      ((n : Rat) ≤ 1000 → normalize_size parseDate (Value.int n) = some ((n : Rat)))) := by
  refine ⟨?_, ?_, ?_, ?_, ?_, ?_⟩
  · have h : normalize_size parseDate (Value.date 46150) =
        normalize_size parseDateNone (Value.date 46150) := rfl
    rw [h]
    decide
  · have h : normalize_size parseDate (Value.int 46150) =
        normalize_size parseDateNone (Value.int 46150) := rfl
    rw [h]
    decide
  · have h : normalize_size parseDate (Value.num 46150) =
        normalize_size parseDateNone (Value.num 46150) := rfl
    rw [h]
    decide
  · intro q hq
    rw [normalize_size, if_pos hq, ratSub_eq]
  · intro q hq
    rw [normalize_size, if_neg (not_lt.mpr hq)]
  · intro n
    constructor
    · intro hn
      rw [normalize_size, if_pos hn, ratSub_eq]
    · intro hn
      rw [normalize_size, if_neg (not_lt.mpr hn)]

theorem serial_correction_amended_witness :
    normalize_size parseDateNone (Value.num 46150) =
      some (46150 - ((SERIAL_OFFSET : Int) : Rat)) ∧
    normalize_size parseDateNone (Value.num 999) = some 999 :=
  ⟨(serial_correction_amended parseDateNone).2.2.2.1 46150 (by norm_num),
   (serial_correction_amended parseDateNone).2.2.2.2.1 999 (by norm_num)⟩

/-- C1 as stated is false: the output total can exceed the total over rows
whose item key is present and non-empty after trimming, because a missing
key is kept as the text "nan".  On a one-row table with a missing key the
wide table sums to 5 while the claim's row set is empty and sums to 0. -/
theorem sum_invariant_counterexample :
    to_wide exMissingKey "sku" "size" "qty" 0 20 true parseDateNone =
      .ok [(.str "sku", [.str "nan"]), (.str "TOT", [.int 5]), (.int 6, [.int 5])] ∧
    sizeCellsSum [(.str "sku", [.str "nan"]), (.str "TOT", [.int 5]),
      (.int 6, [.int 5])] "sku" = 5 ∧
    ((exMissingKey.rows.filter (fun r => !(decide (r.getD 0 .missing = Value.missing)) &&
        !(decide (pyStrip (pyStr (r.getD 0 .missing)) = "")) &&
        betweenBoth 0 20 (sizeNormCell parseDateNone (r.getD 1 .missing)))).map
      (fun r => coerce_qty (r.getD 2 .missing))).sum = 0 ∧
    (5 : Int) ≠ 0 := by
  refine ⟨by decide, by decide, by decide, by decide⟩

/-- C1 (amended): the sum of all quantity cells of the wide table, the TOT
column excluded, equals the sum of the coerced quantities of exactly those
input rows whose key cell converts to a non-empty string after trimming
(a missing key converts to the text "nan" and therefore counts) and whose
canonical size lies inside `[size_min, size_max]` — never more, never less. -/
theorem sum_invariant (cols : List String) (rows : List (List Value))
    (sku_col size_col qty_col : String) (mn mx : Rat) (add_tot : Bool)
    (parseDate : String → Option Int) (si zi qi : Nat)
    (hsku : colIdx cols sku_col = some si)
    (hsize : colIdx cols size_col = some zi)
    (hqty : colIdx cols qty_col = some qi)
    (hns : colIdx cols "_size_norm" = none)
    (hsz : si ≠ zi) (hsq : si ≠ qi) (hzq : zi ≠ qi)
    (hrect : ∀ r ∈ rows, r.length = cols.length) (w : WideT)
    (hw : to_wide ⟨cols, rows⟩ sku_col size_col qty_col mn mx add_tot parseDate = .ok w) :
    sizeCellsSum w sku_col = keptQtySum parseDate mn mx si zi qi rows := by
  rw [to_wide_eq_buildWide cols rows sku_col size_col qty_col mn mx add_tot parseDate
    si zi qi hsku hsize hqty hns hsz hsq hzq hrect] at hw
  injection hw with hw
  rw [← hw, sizeCellsSum_buildWide, procRows_qty_sum]

theorem sum_invariant_witness :
    to_wide exTable "sku" "size" "qty" 0 20 true parseDateNone = .ok exWide ∧
    sizeCellsSum exWide "sku" = keptQtySum parseDateNone 0 20 0 1 2 exTable.rows ∧
    sizeCellsSum exWide "sku" = 10 :=
  ⟨by decide,
   sum_invariant ["sku", "size", "qty"] exTable.rows "sku" "size" "qty" 0 20 true
     parseDateNone 0 1 2 (by decide) (by decide) (by decide) (by decide) (by decide)
     (by decide) (by decide) (by decide) exWide (by decide),
   by decide⟩

/-! ### Header rendering -/

theorem half_mkRat : (mkRat 1 2 : Rat) = 1 / 2 := by
  rw [Rat.mkRat_eq_div]
  norm_num

theorem headerEps_eq : headerEps = 1 / 1000000000 := by
  rw [headerEps, Rat.mkRat_eq_div]
  norm_num

theorem pyRound_spec (q : Rat) : pyRound q =
    if q - (⌊q⌋ : Rat) < 1 / 2 then ⌊q⌋
    else if q - (⌊q⌋ : Rat) > 1 / 2 then ⌊q⌋ + 1
    else if ⌊q⌋ % 2 = 0 then ⌊q⌋ else ⌊q⌋ + 1 := by
  rw [pyRound]
  simp only [ratSub_eq, half_mkRat]

theorem pyRound_eq_of_close {q : Rat} {n : Int} (h : |q - (n : Rat)| < 1 / 2) :
    pyRound q = n := by
  rw [pyRound_spec]
  rw [abs_lt] at h
  obtain ⟨h1, h2⟩ := h
  have hf1 : (⌊q⌋ : Rat) ≤ q := Int.floor_le q
  have hf2 : q < (⌊q⌋ : Rat) + 1 := Int.lt_floor_add_one q
  by_cases hc1 : q - (⌊q⌋ : Rat) < 1 / 2
  · rw [if_pos hc1]
    have hlt : (n : Rat) < (⌊q⌋ : Rat) + 1 := by linarith
    have hgt : (⌊q⌋ : Rat) - 1 < (n : Rat) := by linarith
    have hlt' : n < ⌊q⌋ + 1 := by exact_mod_cast hlt
    have hgt' : ⌊q⌋ - 1 < n := by exact_mod_cast hgt
    omega
  · rw [if_neg hc1]
    by_cases hc2 : q - (⌊q⌋ : Rat) > 1 / 2
    · rw [if_pos hc2]
      have hgt : (⌊q⌋ : Rat) < (n : Rat) := by linarith
      have hlt : (n : Rat) < (⌊q⌋ : Rat) + 2 := by linarith
      have hgt' : ⌊q⌋ < n := by exact_mod_cast hgt
      have hlt' : n < ⌊q⌋ + 2 := by exact_mod_cast hlt
      omega
    · exfalso
      have heq : q - (⌊q⌋ : Rat) = 1 / 2 := le_antisymm (not_lt.mp hc2) (not_lt.mp hc1)
      have ha : (⌊q⌋ : Rat) < (n : Rat) := by linarith
      have hb : (n : Rat) < (⌊q⌋ : Rat) + 1 := by linarith
      have ha' : ⌊q⌋ < n := by exact_mod_cast ha
      have hb' : n < ⌊q⌋ + 1 := by exact_mod_cast hb
      omega

theorem nice_header_int {q : Rat} {n : Int} (h : |q - (n : Rat)| < headerEps) :
    nice_header q = ColLabel.int n := by
  rw [headerEps_eq] at h
  have hr : pyRound q = n := pyRound_eq_of_close (lt_trans h (by norm_num))
  rw [nice_header]
  simp only [ratAbs_eq, ratSub_eq, hr]
  rw [if_pos (by rw [headerEps_eq]; exact h)]

theorem nice_header_frac {q : Rat} (h : ∀ n : Int, headerEps ≤ |q - (n : Rat)|) :
    nice_header q = ColLabel.num q := by
  rw [nice_header]
  simp only [ratAbs_eq, ratSub_eq]
  rw [if_neg (not_lt.mpr (h (pyRound q)))]

/-! ### The shape of the wide table -/

theorem buildWide_labels (sku_col : String) (add_tot : Bool)
    (prs : List (String × Rat × Int)) :
    (buildWide sku_col add_tot prs).map Prod.fst = ColLabel.str sku_col ::
      ((if add_tot then [ColLabel.str "TOT"] else []) ++
        (sortRat (prs.map (fun p => p.2.1)).dedup).map nice_header) := by
  rw [buildWide]
  by_cases htot : add_tot
  · rw [if_pos htot, if_pos htot]
    simp only [List.take_succ_cons, List.take_zero, List.drop_succ_cons, List.drop_zero]
    simp [List.map_map, Function.comp_def]
  · rw [if_neg htot, if_neg htot]
    simp [List.map_map, Function.comp_def]

theorem buildWide_head (sku_col : String) (add_tot : Bool)
    (prs : List (String × Rat × Int)) :
    (buildWide sku_col add_tot prs).headD (ColLabel.str sku_col, []) =
      (ColLabel.str sku_col, (sortStr (prs.map Prod.fst).dedup).map Cell.str) := by
  rw [buildWide]
  by_cases htot : add_tot
  · rw [if_pos htot]
    simp only [List.take_succ_cons, List.take_zero, List.drop_succ_cons, List.drop_zero]
    rfl
  · rw [if_neg htot]
    rfl

theorem keptRow_rowSize_some {parseDate : String → Option Int} {mn mx : Rat}
    {si zi : Nat} {r : List Value} (h : keptRow parseDate mn mx si zi r = true) :
    rowSize parseDate zi r = some ((rowSize parseDate zi r).getD 0) := by
  rw [keptRow, sizeNormCell] at h
  rw [rowSize]
  cases hx : normalize_size parseDate (r.getD zi .missing) with
  | none =>
    rw [hx] at h
    simp [betweenBoth] at h
  | some x => rfl

/-- C6: the wide table has the item key column first, then (when the total
flag is on) TOT immediately after, then one column per distinct surviving
canonical size in strictly ascending order; a size within 1e-9 of an integer
is labelled as that integer, any other size keeps its fractional label. -/
theorem column_order (cols : List String) (rows : List (List Value))
    (sku_col size_col qty_col : String) (mn mx : Rat) (add_tot : Bool)
    (parseDate : String → Option Int) (si zi qi : Nat)
    (hsku : colIdx cols sku_col = some si)
    (hsize : colIdx cols size_col = some zi)
    (hqty : colIdx cols qty_col = some qi)
    (hns : colIdx cols "_size_norm" = none)
    (hsz : si ≠ zi) (hsq : si ≠ qi) (hzq : zi ≠ qi)
    (hrect : ∀ r ∈ rows, r.length = cols.length) (w : WideT)
    (hw : to_wide ⟨cols, rows⟩ sku_col size_col qty_col mn mx add_tot parseDate = .ok w) :
    ∃ sizes : List Rat,
      List.Chain' (· < ·) sizes ∧
      w.map Prod.fst = ColLabel.str sku_col ::
        ((if add_tot then [ColLabel.str "TOT"] else []) ++ sizes.map nice_header) ∧
      (∀ q : Rat, q ∈ sizes ↔ ∃ r ∈ rows, keptRow parseDate mn mx si zi r = true ∧
        rowSize parseDate zi r = some q) ∧
      nice_header 6 = ColLabel.int 6 ∧
      nice_header (mkRat 13 2) = ColLabel.num (mkRat 13 2) ∧
      (∀ (q : Rat) (n : Int), |q - (n : Rat)| < headerEps → nice_header q = ColLabel.int n) ∧
      (∀ q : Rat, (∀ n : Int, headerEps ≤ |q - (n : Rat)|) → nice_header q = ColLabel.num q) := by
  rw [to_wide_eq_buildWide cols rows sku_col size_col qty_col mn mx add_tot parseDate
    si zi qi hsku hsize hqty hns hsz hsq hzq hrect] at hw
  injection hw with hw
  subst hw
  refine ⟨sortRat ((procRows parseDate mn mx si zi qi rows).map (fun p => p.2.1)).dedup,
    ?_, buildWide_labels sku_col add_tot _, ?_, by decide, by decide,
    fun q n h => nice_header_int h, fun q h => nice_header_frac h⟩
  · rw [List.chain'_iff_pairwise]
    exact List.Sorted.lt_of_le (List.sorted_insertionSort _ _) (nodup_sortRat_dedup _)
  · intro q
    rw [mem_sortRat_dedup]
    constructor
    · intro hq
      rcases List.mem_map.mp hq with ⟨p, hp, hpq⟩
      rw [procRows] at hp
      rcases List.mem_map.mp hp with ⟨r, hr, hrp⟩
      rcases List.mem_filter.mp hr with ⟨hrmem, hrkept⟩
      refine ⟨r, hrmem, hrkept, ?_⟩
      rw [keptRow_rowSize_some hrkept]
      subst hrp
      rw [← hpq]
    · rintro ⟨r, hrmem, hrkept, hrsize⟩
      apply List.mem_map.mpr
      refine ⟨(rowKey si r, (rowSize parseDate zi r).getD 0, rowQty qi r), ?_, ?_⟩
      · rw [procRows]
        exact List.mem_map.mpr ⟨r, List.mem_filter.mpr ⟨hrmem, hrkept⟩, rfl⟩
      · rw [hrsize]
        rfl

theorem column_order_witness :
    ∃ sizes : List Rat,
      List.Chain' (· < ·) sizes ∧
      exWide.map Prod.fst = ColLabel.str "sku" ::
        ((if true then [ColLabel.str "TOT"] else []) ++ sizes.map nice_header) ∧
      (∀ q : Rat, q ∈ sizes ↔ ∃ r ∈ exTable.rows,
        keptRow parseDateNone 0 20 0 1 r = true ∧ rowSize parseDateNone 1 r = some q) ∧
      nice_header 6 = ColLabel.int 6 ∧
      nice_header (mkRat 13 2) = ColLabel.num (mkRat 13 2) ∧
      (∀ (q : Rat) (n : Int), |q - (n : Rat)| < headerEps → nice_header q = ColLabel.int n) ∧
      (∀ q : Rat, (∀ n : Int, headerEps ≤ |q - (n : Rat)|) → nice_header q = ColLabel.num q) :=
  column_order ["sku", "size", "qty"] exTable.rows "sku" "size" "qty" 0 20 true
    parseDateNone 0 1 2 (by decide) (by decide) (by decide) (by decide) (by decide)
    (by decide) (by decide) (by decide) exWide (by decide)

theorem filterMap_set_eq {α β : Type} (p : α → Bool) (f : α → β) (l : List α) (n : Nat)
    (a d : α) (hp : p a = p (l.getD n d)) (hf : f a = f (l.getD n d)) :
    ((l.set n a).filter p).map f = (l.filter p).map f := by
  induction l generalizing n with
  | nil => rfl
  | cons x xs ih =>
    cases n with
    | zero =>
      rw [List.set_cons_zero]
      rw [List.getD_cons_zero] at hp hf
      by_cases hx : p x = true
      · rw [List.filter_cons_of_pos (by rw [hp]; exact hx), List.filter_cons_of_pos hx,
          List.map_cons, List.map_cons, hf]
      · rw [List.filter_cons_of_neg (by rw [hp]; exact hx), List.filter_cons_of_neg hx]
    | succ m =>
      rw [List.set_cons_succ]
      rw [List.getD_cons_succ] at hp hf
      by_cases hx : p x = true
      · rw [List.filter_cons_of_pos hx, List.filter_cons_of_pos hx, List.map_cons,
          List.map_cons, ih m hp hf]
      · rw [List.filter_cons_of_neg hx, List.filter_cons_of_neg hx, ih m hp hf]

/-- C7: a row whose quantity fails numeric coercion is not dropped: the
quantity is coerced to 0, the wide table is identical to the one for the
same input with that quantity cell replaced by the number 0, and if the row
passes the key and size filters its key still appears among the output rows
and its canonical size among the output columns. -/
theorem unparsable_qty_zeroed (cols : List String) (rows : List (List Value))
    (sku_col size_col qty_col : String) (mn mx : Rat) (add_tot : Bool)
    (parseDate : String → Option Int) (si zi qi : Nat)
    (hsku : colIdx cols sku_col = some si)
    (hsize : colIdx cols size_col = some zi)
    (hqty : colIdx cols qty_col = some qi)
    (hns : colIdx cols "_size_norm" = none)
    (hsz : si ≠ zi) (hsq : si ≠ qi) (hzq : zi ≠ qi)
    (hrect : ∀ r ∈ rows, r.length = cols.length)
    (n : Nat) (hn : n < rows.length)
    (hq : pyToNumeric ((rows.getD n []).getD qi .missing) = none) (w : WideT)
    (hw : to_wide ⟨cols, rows⟩ sku_col size_col qty_col mn mx add_tot parseDate = .ok w) :
    coerce_qty ((rows.getD n []).getD qi .missing) = 0 ∧
    to_wide ⟨cols, rows.set n ((rows.getD n []).set qi (Value.int 0))⟩
        sku_col size_col qty_col mn mx add_tot parseDate = .ok w ∧
    (keptRow parseDate mn mx si zi (rows.getD n []) = true →
      Cell.str (rowKey si (rows.getD n [])) ∈
        (w.headD (ColLabel.str sku_col, [])).2 ∧
      nice_header ((rowSize parseDate zi (rows.getD n [])).getD 0) ∈ w.map Prod.fst) := by
  have hqlt : qi < cols.length := colIdx_lt_length hqty
  have hrl : (rows.getD n []).length = cols.length := by
    rw [List.getD_eq_getElem?_getD, List.getElem?_eq_getElem hn]
    exact hrect _ (List.getElem_mem hn)
  have hrect' : ∀ r ∈ rows.set n ((rows.getD n []).set qi (Value.int 0)),
      r.length = cols.length := by
    intro r hr
    rcases List.mem_or_eq_of_mem_set hr with h | h
    · exact hrect r h
    · rw [h, List.length_set]
      exact hrl
  have e1 : ((rows.getD n []).set qi (Value.int 0)).getD si .missing =
      (rows.getD n []).getD si .missing := getD_set_ne _ (Ne.symm hsq) _ _
  have e2 : ((rows.getD n []).set qi (Value.int 0)).getD zi .missing =
      (rows.getD n []).getD zi .missing := getD_set_ne _ (Ne.symm hzq) _ _
  have e3 : coerce_qty (((rows.getD n []).set qi (Value.int 0)).getD qi .missing) =
      coerce_qty ((rows.getD n []).getD qi .missing) := by
    rw [getD_set_self (by rw [hrl]; exact hqlt)]
    rw [coerce_qty, coerce_qty, hq]
    decide
  have hproc : procRows parseDate mn mx si zi qi
        (rows.set n ((rows.getD n []).set qi (Value.int 0)))
      = procRows parseDate mn mx si zi qi rows := by
    rw [procRows, procRows]
    apply filterMap_set_eq _ _ rows n _ []
    · simp only [keptRow, rowKey, e1, e2]
    · simp only [rowKey, rowSize, rowQty, e1, e2, e3]
  rw [to_wide_eq_buildWide cols rows sku_col size_col qty_col mn mx add_tot parseDate
    si zi qi hsku hsize hqty hns hsz hsq hzq hrect] at hw
  injection hw with hw
  refine ⟨by rw [coerce_qty, hq]; decide, ?_, ?_⟩
  · rw [to_wide_eq_buildWide cols _ sku_col size_col qty_col mn mx add_tot parseDate
      si zi qi hsku hsize hqty hns hsz hsq hzq hrect', hproc, hw]
  · intro hkept
    have hrmem : rows.getD n [] ∈ rows := by
      rw [List.getD_eq_getElem?_getD, List.getElem?_eq_getElem hn]
      exact List.getElem_mem hn
    have hmemproc : (rowKey si (rows.getD n []),
        (rowSize parseDate zi (rows.getD n [])).getD 0,
        rowQty qi (rows.getD n [])) ∈ procRows parseDate mn mx si zi qi rows := by
      rw [procRows]
      exact List.mem_map.mpr ⟨_, List.mem_filter.mpr ⟨hrmem, hkept⟩, rfl⟩
    constructor
    · rw [← hw, buildWide_head]
      apply List.mem_map.mpr
      refine ⟨rowKey si (rows.getD n []), ?_, rfl⟩
      rw [mem_sortStr_dedup]
      exact List.mem_map.mpr ⟨_, hmemproc, rfl⟩
    · rw [← hw, buildWide_labels]
      apply List.mem_cons_of_mem
      apply List.mem_append_right
      apply List.mem_map.mpr
      refine ⟨(rowSize parseDate zi (rows.getD n [])).getD 0, ?_, rfl⟩
      rw [mem_sortRat_dedup]
      exact List.mem_map.mpr ⟨_, hmemproc, rfl⟩

theorem unparsable_qty_zeroed_witness :
    coerce_qty ((exBadQty.rows.getD 0 []).getD 2 .missing) = 0 ∧
    to_wide ⟨["sku", "size", "qty"],
        exBadQty.rows.set 0 ((exBadQty.rows.getD 0 []).set 2 (Value.int 0))⟩
        "sku" "size" "qty" 0 20 true parseDateNone =
      .ok [(.str "sku", [.str "A"]), (.str "TOT", [.int 2]),
           (.int 6, [.int 0]), (.int 7, [.int 2])] ∧
    (keptRow parseDateNone 0 20 0 1 (exBadQty.rows.getD 0 []) = true →
      Cell.str (rowKey 0 (exBadQty.rows.getD 0 [])) ∈
        (([(ColLabel.str "sku", [Cell.str "A"]), (ColLabel.str "TOT", [Cell.int 2]),
          (ColLabel.int 6, [Cell.int 0]),
          (ColLabel.int 7, [Cell.int 2])] : WideT).headD (ColLabel.str "sku", [])).2 ∧
      nice_header ((rowSize parseDateNone 1 (exBadQty.rows.getD 0 [])).getD 0) ∈
        ([(ColLabel.str "sku", [Cell.str "A"]), (ColLabel.str "TOT", [Cell.int 2]),
          (ColLabel.int 6, [Cell.int 0]),
          (ColLabel.int 7, [Cell.int 2])] : WideT).map Prod.fst) :=
  unparsable_qty_zeroed ["sku", "size", "qty"] exBadQty.rows "sku" "size" "qty" 0 20 true
    parseDateNone 0 1 2 (by decide) (by decide) (by decide) (by decide) (by decide)
    (by decide) (by decide) (by decide) 0 (by decide) (by decide) _ (by decide)

/-! ### Text normalization -/

theorem dropWhile_map {α β : Type} (f : α → β) (p : β → Bool) (l : List α) :
    (l.map f).dropWhile p = (l.dropWhile (fun a => p (f a))).map f := by
  induction l with
  | nil => rfl
  | cons a l ih =>
    rw [List.map_cons, List.dropWhile_cons, List.dropWhile_cons]
    by_cases h : p (f a) = true
    · rw [if_pos h, if_pos h, ih]
    · rw [if_neg h, if_neg h, List.map_cons]

theorem comma_ws_eq :
    (fun a => Char.isWhitespace ((fun c => if c = ',' then '.' else c) a)) =
      Char.isWhitespace := by
  funext a
  by_cases h : a = ','
  · rw [h]
    decide
  · simp only [if_neg h]

theorem comma_idem :
    ((fun c => if c = ',' then '.' else c) ∘ (fun c => if c = ',' then '.' else c)) =
      (fun c => if c = ',' then '.' else c) := by
  funext a
  by_cases h : a = ','
  · rw [h]
    decide
  · simp only [Function.comp_apply, if_neg h]

theorem trimChars_map_comma (cs : List Char) :
    trimChars (cs.map (fun c => if c = ',' then '.' else c)) =
      (trimChars cs).map (fun c => if c = ',' then '.' else c) := by
  rw [trimChars, trimChars, dropWhile_map, comma_ws_eq, ← List.map_reverse,
    dropWhile_map, comma_ws_eq, ← List.map_reverse]

theorem commaToDot_pyStrip_comm (s : String) :
    pyStrip (commaToDot s) = commaToDot (pyStrip s) := by
  rw [pyStrip, commaToDot, commaToDot, pyStrip]
  exact congrArg String.mk (trimChars_map_comma s.data)

theorem commaToDot_idem (s : String) : commaToDot (commaToDot s) = commaToDot s := by
  refine congrArg String.mk ?_
  show (s.data.map (fun c => if c = ',' then '.' else c)).map
      (fun c => if c = ',' then '.' else c) = s.data.map (fun c => if c = ',' then '.' else c)
  rw [List.map_map, comma_idem]

theorem pyStrip_leading_space (s : String) : pyStrip (" " ++ s) = pyStrip s := by
  obtain ⟨l⟩ := s
  rw [pyStrip, pyStrip]
  refine congrArg String.mk ?_
  show trimChars (' ' :: l) = trimChars l
  rw [trimChars, trimChars, List.dropWhile_cons, if_pos (by decide)]

/-- C4: for text input the normalizer trims whitespace, turns the decimal
comma into a period, maps the literals "nan"/"none"/"" to unparsable,
otherwise parses the text as a number (the > 1000 date-serial correction
applies there as everywhere), falls back to the external date-text parse
plus serial correction, and fails otherwise; in particular
normalize("6,5") = 6.5, normalize(6.5) = 6.5 and normalize(" 7 ") = 7.0. -/
theorem text_normalization (parseDate : String → Option Int) :
    normalize_size parseDate (Value.str "6,5") = some (mkRat 13 2) ∧
    normalize_size parseDate (Value.num (mkRat 13 2)) = some (mkRat 13 2) ∧
    normalize_size parseDate (Value.str " 7 ") = some 7 ∧
    normalize_size parseDate (Value.str "nan") = none ∧
    normalize_size parseDate (Value.str "none") = none ∧
    normalize_size parseDate (Value.str "") = none ∧
    (∀ s : String, normalize_size parseDate (Value.str (commaToDot s)) =
      normalize_size parseDate (Value.str s)) ∧
    (∀ s : String, normalize_size parseDate (Value.str (" " ++ s)) =
      normalize_size parseDate (Value.str s)) ∧
    (∀ (s : String) (x : Rat),
      ¬(lowerStr (commaToDot (pyStrip s)) = "nan" ∨
        lowerStr (commaToDot (pyStrip s)) = "none" ∨
        lowerStr (commaToDot (pyStrip s)) = "") →
      parseFloat (commaToDot (pyStrip s)) = some x →
      normalize_size parseDate (Value.str s) =
        some (if x > 1000 then x - ((SERIAL_OFFSET : Int) : Rat) else x)) ∧
    normalize_size parseDate (Value.str "46150") = some 9 ∧
    (∀ s : String,
      ¬(lowerStr (commaToDot (pyStrip s)) = "nan" ∨
        lowerStr (commaToDot (pyStrip s)) = "none" ∨
        lowerStr (commaToDot (pyStrip s)) = "") →
      parseFloat (commaToDot (pyStrip s)) = none →
      normalize_size parseDate (Value.str s) = (parseDate (commaToDot (pyStrip s))).map
        (fun d => ((excel_serial_from_datetime d - SERIAL_OFFSET : Int) : Rat))) := by
  refine ⟨?_, ?_, ?_, ?_, ?_, ?_, ?_, ?_, ?_, ?_, ?_⟩
  · have h : normalize_size parseDate (Value.str "6,5") =
        normalize_size parseDateNone (Value.str "6,5") := rfl
    rw [h]
    decide
  · have h : normalize_size parseDate (Value.num (mkRat 13 2)) =
        normalize_size parseDateNone (Value.num (mkRat 13 2)) := rfl
    rw [h]
    decide
  · have h : normalize_size parseDate (Value.str " 7 ") =
        normalize_size parseDateNone (Value.str " 7 ") := rfl
    rw [h]
    decide
  · have h : normalize_size parseDate (Value.str "nan") =
        normalize_size parseDateNone (Value.str "nan") := rfl
    rw [h]
    decide
  · have h : normalize_size parseDate (Value.str "none") =
        normalize_size parseDateNone (Value.str "none") := rfl
    rw [h]
    decide
  · have h : normalize_size parseDate (Value.str "") =
        normalize_size parseDateNone (Value.str "") := rfl
    rw [h]
    decide
  · intro s
    have e : commaToDot (pyStrip (commaToDot s)) = commaToDot (pyStrip s) := by
      rw [commaToDot_pyStrip_comm, commaToDot_idem]
    simp only [normalize_size, e]
  · intro s
    have e : commaToDot (pyStrip (" " ++ s)) = commaToDot (pyStrip s) := by
      rw [pyStrip_leading_space]
    simp only [normalize_size, e]
  · intro s x hna hpf
    simp only [normalize_size]
    rw [if_neg hna, hpf]
    dsimp only
    by_cases hx : x > 1000
    · rw [if_pos hx, if_pos hx, ratSub_eq]
    · rw [if_neg hx, if_neg hx]
  · have h : normalize_size parseDate (Value.str "46150") =
        normalize_size parseDateNone (Value.str "46150") := rfl
    rw [h]
    decide
  · intro s hna hpf
    simp only [normalize_size]
    rw [if_neg hna, hpf]
    cases hpd : parseDate (commaToDot (pyStrip s)) with
    | none => rfl
    | some d => rfl

theorem text_normalization_witness :
    normalize_size parseDateNone (Value.str "6,5") = some (mkRat 13 2) ∧
    normalize_size parseDateNone (Value.str (commaToDot "1,5")) =
      normalize_size parseDateNone (Value.str "1,5") ∧
    normalize_size parseDateNone (Value.str "46150") =
      some (if (46150 : Rat) > 1000 then (46150 : Rat) - ((SERIAL_OFFSET : Int) : Rat)
        else (46150 : Rat)) ∧
    normalize_size parseDateNone (Value.str "abc") =
      (parseDateNone (commaToDot (pyStrip "abc"))).map
        (fun d => ((excel_serial_from_datetime d - SERIAL_OFFSET : Int) : Rat)) :=
  ⟨(text_normalization parseDateNone).1,
   (text_normalization parseDateNone).2.2.2.2.2.2.1 "1,5",
   (text_normalization parseDateNone).2.2.2.2.2.2.2.2.1 "46150" 46150 (by decide) (by decide),
   (text_normalization parseDateNone).2.2.2.2.2.2.2.2.2.2 "abc" (by decide) (by decide)⟩

end VertToOrizz
